import Mathlib

/-!
Verification of the hyperparameter-optimization executor layer
(`ludwig/hyperopt/execution.py`).

Python values flowing through the executor layer (model configurations,
hyperparameter samples, statistics records) are modelled by the inductive
type `V` below: numbers (floats/ints as rationals), strings, dicts
(association lists in insertion order, as Python dicts preserve insertion
order) and lists.  In-place mutation of a Python object is modelled by
returning the object's final value; an uncaught Python exception is
modelled by `Option`/a `Bool` success flag.
-/

/-- A Python value: number, string, dict (entries in insertion order) or list. -/
inductive V where
  | num (q : Rat)
  | str (s : String)
  | dict (entries : List (String × V))
  | arr (elems : List V)

/-- The entries of a Python dict whose keys are strings, in insertion order. -/
abbrev PyDict := List (String × V)

/-- `d[k]` for a Python dict: the value at key `k`, `none` when absent (KeyError). -/
def getKey : PyDict → String → Option V
  | [], _ => none
  | (k1, v1) :: rest, k => if k1 = k then some v1 else getKey rest k

/-- `d[k] = v` for a Python dict: overwrite in place (an existing key keeps its
position, a new key is appended at the end, as insertion-ordered dicts do). -/
def setKey : PyDict → String → V → PyDict
  | [], k, v => [(k, v)]
  | (k1, v1) :: rest, k, v =>
    if k1 = k then (k, v) :: rest else (k1, v1) :: setKey rest k v

/-- Helper of `pySplitDot`: accumulates the current segment (reversed). -/
def splitDotAux : List Char → List Char → List String
  | [], acc => [String.mk acc.reverse]
  | c :: cs, acc =>
    if c = '.' then String.mk acc.reverse :: splitDotAux cs []
    else splitDotAux cs (c :: acc)

/-- Python's `name.split(".")`: the dot-separated segments of `name`
(always a non-empty list; empty segments are kept, as in Python). -/
def pySplitDot (s : String) : List String :=
  splitDotAux s.data []

/-- One pass of the inner loop of `get_parameters_dict` for a single
dot-split key: walk/create nested dicts along the segments and place the
value at the last segment.  An existing non-dict value at an intermediate
segment makes the next loop iteration raise (index/attribute access on a
non-dict), modelled by `none`.  The segment list is never empty. -/
def insertPath (d : PyDict) : List String → V → Option PyDict
  | [], _ => none
  | [k], v => some (setKey d k v)
  | k :: k2 :: rest, v =>
    match getKey d k with
    | some (V.dict sub) =>
      match insertPath sub (k2 :: rest) v with
      | some sub2 => some (setKey d k (V.dict sub2))
      | none => none
    | some _ => none
    | none =>
      match insertPath [] (k2 :: rest) v with
      | some sub2 => some (setKey d k (V.dict sub2))
      | none => none

/-- `get_parameters_dict(parameters)`: convert a flat mapping with
dot-delimited keys into a nested mapping, iterating the parameters in
insertion order. -/
def get_parameters_dict (parameters : PyDict) : Option PyDict :=
  parameters.foldl
    (fun acc p =>
      match acc with
      | none => none
      | some d => insertPath d (pySplitDot p.1) p.2)
    (some [])

/-- Write every pair of `sub` onto the dict entries `tgt`
(the inner `model_dict[key][sub_key] = sub_value` loop once
`model_dict[key]` is known to be a dict). -/
def writeAll (tgt : PyDict) (sub : PyDict) : PyDict :=
  sub.foldl (fun t p => setKey t p.1 p.2) tgt

/-- The `for key, value in params.items()` loop of `set_values`, acting on the
target object `target`.  The returned `Bool` is the success flag: `false`
means a `KeyError`/`TypeError` was raised at that point, and the first
component is the state of the target at the moment of the error (earlier
writes persist, as the mutation is in place).  A child value that is an
empty dict performs no write at all (the inner loop body never runs), so it
cannot fail even when its key is absent from the target. -/
def set_values_items (target : V) : PyDict → V × Bool
  | [] => (target, true)
  | (key, V.dict sub) :: rest =>
    if sub.isEmpty then set_values_items target rest
    else
      match target with
      | V.dict md =>
        match getKey md key with
        | some (V.dict tgt) =>
          set_values_items (V.dict (setKey md key (V.dict (writeAll tgt sub)))) rest
        | _ => (target, false)
      | _ => (target, false)
  | (key, v) :: rest =>
    match target with
    | V.dict md => set_values_items (V.dict (setKey md key v)) rest
    | _ => (target, false)

/-- `set_values(model_dict, name, parameters_dict)`: if `name` is a key of the
nested parameter mapping, copy each of its child pairs onto the target; a
child that is itself a dict is merged one level deeper, which requires the
target to already hold a dict at that child key.  The `Bool` is the success
flag (`false` = raised), the `V` the state of the target afterwards. -/
def set_values (model_dict : V) (name : String) (parameters_dict : PyDict) : V × Bool :=
  match getKey parameters_dict name with
  | none => (model_dict, true)
  | some (V.dict params) => set_values_items model_dict params
  | some _ => (model_dict, false)

/-- `copy.deepcopy` on a model definition: produces a structurally equal
object sharing no mutable parts with the original; on the value level it is
the identity.  Its role in the source is that the per-trial substitution
then mutates the copy, never the caller's object. -/
def deepcopy (d : PyDict) : PyDict := d

/-- `set_values(feature, feature[NAME], parameters_dict)` for one input or
output feature.  A feature without a `"name"` key raises (KeyError); a
non-string name is never a key of the split-generated parameter mapping, so
the call is a no-op; a non-dict feature raises on the index access. -/
def substFeature (pd : PyDict) (feature : V) : Option V :=
  match feature with
  | V.dict fe =>
    match getKey fe "name" with
    | none => none
    | some (V.str s) =>
      match set_values (V.dict fe) s pd with
      | (f2, true) => some f2
      | (_, false) => none
    | some _ => some (V.dict fe)
  | _ => none

/-- The `for feature in model_definition[...]` loops of
`substitute_parameters`, mutating each feature in place. -/
def substFeatures (pd : PyDict) : List V → Option (List V)
  | [] => some []
  | f :: rest =>
    match substFeature pd f with
    | none => none
    | some f2 =>
      match substFeatures pd rest with
      | none => none
      | some r2 => some (f2 :: r2)

/-- `set_values(model_definition[key], key, parameters_dict)` for one of the
top-level sections (`combiner`, `training`, `preprocessing`): the section
must exist (KeyError otherwise), and is mutated in place. -/
def applySection (md : PyDict) (key : String) (pd : PyDict) : Option PyDict :=
  match getKey md key with
  | none => none
  | some tgt =>
    match set_values tgt key pd with
    | (t2, true) => some (setKey md key t2)
    | (_, false) => none

/-- `substitute_parameters(model_definition, parameters)`: build the nested
parameter mapping, then apply `set_values` to every input feature, every
output feature, and the `combiner`, `training` and `preprocessing` sections.
The source performs NO copy: it mutates `model_definition` in place and
returns the same object; the returned value here is the final state of the
argument.  The feature containers are modelled as lists (`V.arr`), as in
every configuration. `none` models an uncaught exception. -/
def substitute_parameters (md : PyDict) (parameters : PyDict) : Option PyDict :=
  match get_parameters_dict parameters with
  | none => none
  | some pd =>
    match getKey md "input_features" with
    | some (V.arr ifs) =>
      match substFeatures pd ifs with
      | none => none
      | some ifs2 =>
        match getKey (setKey md "input_features" (V.arr ifs2)) "output_features" with
        | some (V.arr ofs) =>
          match substFeatures pd ofs with
          | none => none
          | some ofs2 =>
            match applySection
                (setKey (setKey md "input_features" (V.arr ifs2)) "output_features"
                  (V.arr ofs2)) "combiner" pd with
            | none => none
            | some md3 =>
              match applySection md3 "training" pd with
              | none => none
              | some md4 => applySection md4 "preprocessing" pd
        | _ => none
    | _ => none

/-- One per-trial result record as appended by the executors:
`{"parameters": ..., "metric_score": ..., "training_stats": ..., "eval_stats": ...}`. -/
structure TrialResult where
  parameters : V
  metric_score : Rat
  training_stats : V
  eval_stats : V

/-- `get_metric_score(eval_stats)`: `eval_stats[self.output_feature][self.metric]`.
A missing key raises (KeyError), modelled by `none`; a metric value is a
number (a Python float). -/
def get_metric_score (output_feature metric : String) (eval_stats : V) : Option Rat :=
  match eval_stats with
  | V.dict es =>
    match getKey es output_feature with
    | some (V.dict feat) =>
      match getKey feat metric with
      | some (V.num q) => some q
      | _ => none
    | _ => none
  | _ => none

/-- The sampler's optimization goal (`goal` attribute). -/
inductive Goal where
  | MAXIMIZE
  | MINIMIZE
deriving DecidableEq

/-- `sort_hyperopt_results(hyperopt_results)`:
`sorted(hyperopt_results, key=metric_score, reverse=(goal == MAXIMIZE))`.
Python's `sorted` is the stable sort by the given key (equal keys keep
their original relative order, also under `reverse=True`); the unique
stable sort is realised here by insertion sort. -/
def sort_hyperopt_results (goal : Goal) (results : List TrialResult) : List TrialResult :=
  if goal = Goal.MAXIMIZE then
    results.insertionSort (fun a b => b.metric_score ≤ a.metric_score)
  else
    results.insertionSort (fun a b => a.metric_score ≤ b.metric_score)

/-- Python's `int()` applied to a (rational) float: truncation toward zero. -/
def truncInt (q : Rat) : Int :=
  if 0 ≤ q then ⌊q⌋ else ⌈q⌉

/-- Per-GPU metadata computed by `ParallelExecutor.execute`:
`{"gpu_memory_limit": ..., "process_per_gpu": ...}`.  The memory limit is
`None` exactly when no explicit limit was given in the `G ≥ W` branch. -/
structure GpuMeta where
  gpu_memory_limit : Option Rat
  process_per_gpu : Int
deriving DecidableEq

/-- The body of the `for gpu_id in gpu_ids` loop in the over-subscribed
branch (`num_gpus < num_workers`) of `ParallelExecutor.execute`, for one GPU
id with available memory `available_gpu_memory`.  The class constants are
`epsilon_memory = 100` and `TF_REQUIRED_MEMORY_PER_WORKER = 100`;
`epsilon` is the configurable fraction epsilon (default `0.01`). -/
def gpuIdMeta (num_workers : Nat) (epsilon : Rat) (gpu_memory_limit : Option Rat)
    (num_gpus : Nat) (available_gpu_memory : Rat) : GpuMeta :=
  let fraction : Rat := (num_gpus : Rat) / (num_workers : Rat) - epsilon
  let required_gpu_memory := fraction * available_gpu_memory
  let new_gpu_memory_limit : Rat :=
    match gpu_memory_limit with
    | none => required_gpu_memory - 100 * (num_workers : Rat)
    | some lim =>
      let n1 := if lim > available_gpu_memory then available_gpu_memory - 100 else lim
      if required_gpu_memory < n1 then
        if required_gpu_memory > (1 / 2) * available_gpu_memory then
          if available_gpu_memory ≠ n1 then available_gpu_memory - 100 else n1
        else required_gpu_memory
      else n1
  { gpu_memory_limit := some new_gpu_memory_limit,
    process_per_gpu := truncInt (available_gpu_memory / new_gpu_memory_limit) }

/-- The whole `gpu_ids_meta` computation of `ParallelExecutor.execute`: the
over-subscribed branch runs `gpuIdMeta` per GPU id against the queried
available-memory table, the `G ≥ W` branch stores the explicit limit (which
may be absent) with one process per GPU. -/
def gpuIdsMeta (num_workers : Nat) (epsilon : Rat) (gpu_memory_limit : Option Rat)
    (gpu_ids : List Nat) (available : Nat → Rat) : List (Nat × GpuMeta) :=
  if gpu_ids.length < num_workers then
    gpu_ids.map fun g =>
      (g, gpuIdMeta num_workers epsilon gpu_memory_limit gpu_ids.length (available g))
  else
    gpu_ids.map fun g =>
      (g, { gpu_memory_limit := gpu_memory_limit, process_per_gpu := 1 })

/-- One GPU slot token of the shared queue:
`{"gpu_id": ..., "gpu_memory_limit": ...}`. -/
structure GpuSlot where
  gpu_id : String
  gpu_memory_limit : Option Rat
deriving DecidableEq

/-- The keyword-argument record each parallel trial receives.  The many
pass-through options (`skip_save_*`, seeds, paths, ...) are threaded
unchanged by the source and omitted here. -/
structure HyperoptDict where
  parameters : V
  model_definition : PyDict
  gpus : Option String
  gpu_memory_limit : Option Rat

/-- `ParallelExecutor._train_and_eval_model_gpu(hyperopt_dict)` together with
the shared slot queue (modelled as a list: `get` takes the front, `put`
appends at the back).  `trainEval` is the external `train_and_eval_on_split`
collaborator (`none` = the trial raised).  The outer `none` is the blocked
call on an empty queue (it never finishes); otherwise the result is the
trial outcome (`none` = the exception propagates) paired with the queue
after the call: the borrowed slot is put back in the `finally` block on
every exit path. -/
def trainAndEvalModelGpu (trainEval : HyperoptDict → Option (V × V))
    (output_feature metric : String) (hyperopt_dict : HyperoptDict)
    (queue : List GpuSlot) : Option (Option TrialResult × List GpuSlot) :=
  match queue with
  | [] => none
  | meta :: rest =>
    let hd2 := { hyperopt_dict with
                 gpus := some meta.gpu_id, gpu_memory_limit := meta.gpu_memory_limit }
    let body : Option TrialResult :=
      match trainEval hd2 with
      | none => none
      | some (ts, es) =>
        match get_metric_score output_feature metric es with
        | none => none
        | some score => some ⟨hyperopt_dict.parameters, score, ts, es⟩
    some (body, rest ++ [meta])

/-- The executor classes the registry can produce. -/
inductive ExecutorTag where
  | serial
  | parallel
  | fiber
deriving DecidableEq

/-- `executor_registry`: strategy name to executor class. -/
def executor_registry : List (String × ExecutorTag) :=
  [("serial", ExecutorTag.serial),
   ("parallel", ExecutorTag.parallel),
   ("fiber", ExecutorTag.fiber)]

/-- Modelled from the spec: `get_from_registry` (from
`ludwig.utils.misc_utils`, not part of the sources here) looks a name up in
a registry and "unknown names fail with a lookup error", modelled by
`none`. -/
def get_from_registry (key : String) : List (String × ExecutorTag) → Option ExecutorTag
  | [] => none
  | (k1, v) :: rest => if k1 = key then some v else get_from_registry key rest

/-- `get_build_hyperopt_executor(executor_type)`. -/
def get_build_hyperopt_executor (executor_type : String) : Option ExecutorTag :=
  get_from_registry executor_type executor_registry

/-- The collaborator `train_and_eval_on_split` as seen by the executor
loops: a modified model definition in, `(train_stats, eval_stats)` out,
`none` when the trial raises.  Training and evaluation themselves are
external to this layer. -/
abbrev TrainEval := PyDict → Option (V × V)

/-- One trial of `SerialExecutor.execute`: substitute the sampled
parameters into `copy.deepcopy(model_definition)`, run the trial, extract
the metric score.  The second component of the result is the state of the
caller's base model definition after the trial: the substitution mutates
the deep copy, so the base keeps its value. -/
def serialTrial (trainEval : TrainEval) (output_feature metric : String)
    (base : PyDict) (parameters : PyDict) : Option (TrialResult × PyDict) :=
  match substitute_parameters (deepcopy base) parameters with
  | none => none
  | some modified =>
    match trainEval modified with
    | none => none
    | some (ts, es) =>
      match get_metric_score output_feature metric es with
      | none => none
      | some score => some (⟨V.dict parameters, score, ts, es⟩, base)

/-- The `for i, parameters in enumerate(sampled_parameters)` loop of
`SerialExecutor.execute` over one batch: per-trial results, the
accumulated `metric_scores` list, and the base definition state after the
batch. -/
def runSerialBatch (trainEval : TrainEval) (output_feature metric : String) :
    PyDict → List PyDict → Option (List TrialResult × List Rat × PyDict)
  | base, [] => some ([], [], base)
  | base, p :: ps =>
    match serialTrial trainEval output_feature metric base p with
    | none => none
    | some (r, base1) =>
      match runSerialBatch trainEval output_feature metric base1 ps with
      | none => none
      | some (rs, scores, base2) => some (r :: rs, r.metric_score :: scores, base2)

/-- The `while not self.hyperopt_sampler.finished()` loop of
`SerialExecutor.execute`.  The sampler is modelled by its finite batch
script: `sample_batch` pops the next batch and `finished()` holds exactly
when the script is exhausted.  Returned: all trial results in order, the
log of `update_batch` calls (one entry per batch,
`zip(sampled_parameters, metric_scores)`), and the final state of the base
model definition. -/
def serialLoop (trainEval : TrainEval) (output_feature metric : String) :
    PyDict → List (List PyDict) →
    Option (List TrialResult × List (List (V × Rat)) × PyDict)
  | base, [] => some ([], [], base)
  | base, batch :: rest =>
    match runSerialBatch trainEval output_feature metric base batch with
    | none => none
    | some (rs, scores, base1) =>
      match serialLoop trainEval output_feature metric base1 rest with
      | none => none
      | some (laterRs, laterUpd, base2) =>
        some (rs ++ laterRs, ((batch.map V.dict).zip scores) :: laterUpd, base2)

/-- `SerialExecutor.execute`: run the sampling loop, then sort the results. -/
def serialExecute (trainEval : TrainEval) (output_feature metric : String)
    (goal : Goal) (base : PyDict) (batches : List (List PyDict)) :
    Option (List TrialResult × List (List (V × Rat)) × PyDict) :=
  match serialLoop trainEval output_feature metric base batches with
  | none => none
  | some (rs, upds, b2) => some (sort_hyperopt_results goal rs, upds, b2)

/-- The `hyperopt_parameters` list built by the coordinator of
`ParallelExecutor.execute` for one batch: per sample, the deep copy of the
base is substituted and the pair (the sample object, the modified
definition) is dispatched.  The second component is the base state after
building (the copies shield it). -/
def buildHyperoptParams (base : PyDict) : List PyDict → Option (List (V × PyDict) × PyDict)
  | [] => some ([], base)
  | p :: ps =>
    match substitute_parameters (deepcopy base) p with
    | none => none
    | some modified =>
      match buildHyperoptParams base ps with
      | none => none
      | some (rest, base2) => some ((V.dict p, modified) :: rest, base2)

/-- `ParallelExecutor._train_and_eval_model(hyperopt_dict)` (the worker
body without GPU gating): run the trial and build the result record, with
the parameters taken from the dispatched record. -/
def trainAndEvalModel (trainEval : TrainEval) (output_feature metric : String)
    (hd : V × PyDict) : Option TrialResult :=
  match trainEval hd.2 with
  | none => none
  | some (ts, es) =>
    match get_metric_score output_feature metric es with
    | none => none
    | some score => some ⟨hd.1, score, ts, es⟩

/-- `pool.map(f, items)`: dispatch the whole batch and block until every
item completes; an exception in any worker aborts the batch and is
re-raised in the coordinator (`none`). -/
def poolMap (f : α → Option β) : List α → Option (List β)
  | [] => some []
  | a :: rest =>
    match f a with
    | none => none
    | some b =>
      match poolMap f rest with
      | none => none
      | some bs => some (b :: bs)

/-- The sampling loop of `ParallelExecutor.execute` (the `gpus is None`
dispatch path; the GPU-gated path differs only in the worker used, see
`trainAndEvalModelGpu`).  One `pool.map` per batch; `update_batch` receives
`(result["parameters"], result["metric_score"])` for each batch result;
the results are accumulated with `extend`. -/
def parallelLoop (trainEval : TrainEval) (output_feature metric : String) :
    PyDict → List (List PyDict) →
    Option (List TrialResult × List (List (V × Rat)) × PyDict)
  | base, [] => some ([], [], base)
  | base, batch :: rest =>
    match buildHyperoptParams base batch with
    | none => none
    | some (hps, base1) =>
      match poolMap (trainAndEvalModel trainEval output_feature metric) hps with
      | none => none
      | some batchResults =>
        match parallelLoop trainEval output_feature metric base1 rest with
        | none => none
        | some (laterRs, laterUpd, base2) =>
          some (batchResults ++ laterRs,
            (batchResults.map fun r => (r.parameters, r.metric_score)) :: laterUpd,
            base2)

/-- `ParallelExecutor.execute`: loop, then sort. -/
def parallelExecute (trainEval : TrainEval) (output_feature metric : String)
    (goal : Goal) (base : PyDict) (batches : List (List PyDict)) :
    Option (List TrialResult × List (List (V × Rat)) × PyDict) :=
  match parallelLoop trainEval output_feature metric base batches with
  | none => none
  | some (rs, upds, b2) => some (sort_hyperopt_results goal rs, upds, b2)

/-- The list comprehension of `FiberExecutor.execute` building the mapped
argument records for one batch: only the substituted definitions are sent
to the workers.  The second component is the base state after building. -/
def buildFiberConfigs (base : PyDict) : List PyDict → Option (List PyDict × PyDict)
  | [] => some ([], base)
  | p :: ps =>
    match substitute_parameters (deepcopy base) p with
    | none => none
    | some modified =>
      match buildFiberConfigs base ps with
      | none => none
      | some (rest, base2) => some (modified :: rest, base2)

/-- The `for stats, parameters in zip(stats_batch, sampled_parameters)`
collection loop of `FiberExecutor.execute`: extract each metric score in
the coordinator and build the result records. -/
def fiberCollect : List ((V × V) × PyDict) → (output_feature : String) → (metric : String) →
    Option (List TrialResult × List Rat)
  | [], _, _ => some ([], [])
  | ((ts, es), p) :: rest, output_feature, metric =>
    match get_metric_score output_feature metric es with
    | none => none
    | some score =>
      match fiberCollect rest output_feature metric with
      | none => none
      | some (rs, scores) => some (⟨V.dict p, score, ts, es⟩ :: rs, score :: scores)

/-- The sampling loop of `FiberExecutor.execute`: one `pool.map` per batch
over the substituted definitions, then the coordinator extracts scores and
calls `update_batch(zip(sampled_parameters, metric_scores))`. -/
def fiberLoop (trainEval : TrainEval) (output_feature metric : String) :
    PyDict → List (List PyDict) →
    Option (List TrialResult × List (List (V × Rat)) × PyDict)
  | base, [] => some ([], [], base)
  | base, batch :: rest =>
    match buildFiberConfigs base batch with
    | none => none
    | some (configs, base1) =>
      match poolMap trainEval configs with
      | none => none
      | some statsBatch =>
        match fiberCollect (statsBatch.zip batch) output_feature metric with
        | none => none
        | some (rs, scores) =>
          match fiberLoop trainEval output_feature metric base1 rest with
          | none => none
          | some (laterRs, laterUpd, base2) =>
            some (rs ++ laterRs, ((batch.map V.dict).zip scores) :: laterUpd, base2)

/-- `FiberExecutor.execute`: loop, then sort. -/
def fiberExecute (trainEval : TrainEval) (output_feature metric : String)
    (goal : Goal) (base : PyDict) (batches : List (List PyDict)) :
    Option (List TrialResult × List (List (V × Rat)) × PyDict) :=
  match fiberLoop trainEval output_feature metric base batches with
  | none => none
  | some (rs, upds, b2) => some (sort_hyperopt_results goal rs, upds, b2)

/-! ## Helper lemmas -/

theorem getKey_setKey_ne (d : PyDict) (k k2 : String) (v : V) (h : k2 ≠ k) :
    getKey (setKey d k v) k2 = getKey d k2 := by
  induction d with
  | nil =>
    simp only [setKey, getKey]
    rw [if_neg (fun h2 => h h2.symm)]
  | cons p rest ih =>
    obtain ⟨k1, v1⟩ := p
    by_cases h1 : k1 = k
    · subst h1
      simp only [setKey, if_pos rfl, getKey]
      rw [if_neg (fun h2 => h h2.symm), if_neg (fun h2 => h h2.symm)]
    · simp only [setKey, if_neg h1, getKey]
      by_cases h2 : k1 = k2
      · rw [if_pos h2, if_pos h2]
      · rw [if_neg h2, if_neg h2, ih]

theorem applySection_getKey_ne (md pd out : PyDict) (key k : String)
    (h : applySection md key pd = some out) (hk : k ≠ key) :
    getKey out k = getKey md k := by
  unfold applySection at h
  split at h
  · exact absurd h (by simp)
  · split at h
    · cases h
      exact getKey_setKey_ne md key k _ hk
    · exact absurd h (by simp)

/-! ## C5: get_parameters_dict nesting and prefix merging -/

/-- C5: `get_parameters_dict` turns a dot-delimited key `"a.b.c"` into the
nested mapping `{a: {b: {c: value}}}`, and two keys sharing the prefix
`"a"` (`"a.b"` and `"a.c"`) merge into the same parent node; in particular
`{"a.b": 1, "a.c": 2}` yields `{"a": {"b": 1, "c": 2}}`. -/
theorem get_parameters_dict_nests_and_merges :
    (∀ v : V, get_parameters_dict [("a.b.c", v)] =
      some [("a", V.dict [("b", V.dict [("c", v)])])]) ∧
    (∀ v1 v2 : V, get_parameters_dict [("a.b", v1), ("a.c", v2)] =
      some [("a", V.dict [("b", v1), ("c", v2)])]) ∧
    get_parameters_dict [("a.b", V.num 1), ("a.c", V.num 2)] =
      some [("a", V.dict [("b", V.num 1), ("c", V.num 2)])] :=
  ⟨fun _ => rfl, fun _ _ => rfl, rfl⟩

/-! ## C9: the executor registry -/

/-- C9 (counterexample): the registry does not contain the key
`"distributed"`; the third key is `"fiber"`. -/
theorem executor_registry_distributed_counterexample :
    get_build_hyperopt_executor "distributed" = none ∧
    get_build_hyperopt_executor "fiber" = some ExecutorTag.fiber :=
  ⟨rfl, rfl⟩

/-- C9 (amended): the executor registry maps exactly the strategy names
`"serial"`, `"parallel"` and `"fiber"` to executor constructors, and
looking up any other name fails with a lookup error (no executor is
produced) before any trial runs. -/
theorem get_build_hyperopt_executor_domain (k : String) :
    (get_build_hyperopt_executor k).isSome = true ↔
      k = "serial" ∨ k = "parallel" ∨ k = "fiber" := by
  simp only [get_build_hyperopt_executor, executor_registry, get_from_registry]
  split_ifs with h1 h2 h3
  · simp [h1.symm]
  · simp [h2.symm]
  · simp [h3.symm]
  · simp only [Option.isSome_none, Bool.false_eq_true, false_iff]
    rintro (h | h | h)
    · exact h1 h.symm
    · exact h2 h.symm
    · exact h3 h.symm

/-- C9 (witness): the registry lookup succeeds on the name `"serial"`. -/
theorem get_build_hyperopt_executor_domain_witness :
    (get_build_hyperopt_executor "serial").isSome = true :=
  (get_build_hyperopt_executor_domain "serial").mpr (Or.inl rfl)

/-! ## C10: set_values requires an existing sub-mapping -/

/-- C10 (counterexample): a child value that is an *empty* mapping is
skipped without error even when its key is absent from the target — the
inner write loop never runs — so the call succeeds where the claim demands
a failure. -/
theorem set_values_empty_submapping_counterexample :
    set_values (V.dict []) "n" [("n", V.dict [("kk", V.dict [])])] =
      (V.dict [], true) := rfl

/-- C10 (amended): when `name` is present and some child value under it is
a NONEMPTY mapping, the merge requires the target to already hold a mapping
under the corresponding child key: if, at the moment that child is reached
(after the earlier, non-dict children have already been written onto the
target), the key is absent or holds a non-mapping, the call fails with an
error, leaving the earlier writes in place and creating no sub-mapping.
A child value that is an empty mapping is skipped without error. -/
theorem set_values_requires_existing_submapping
    (entries : PyDict) (name : String) (pd : PyDict)
    (pre : PyDict) (k : String) (sub : PyDict) (rest : PyDict) (params : PyDict)
    (hname : getKey pd name = some (V.dict params))
    (hparams : params = pre ++ (k, V.dict sub) :: rest)
    (hsub : sub ≠ [])
    (hpre : ∀ q ∈ pre, ∀ d : PyDict, q.2 ≠ V.dict d)
    (hmiss : ∀ d : PyDict,
      getKey (pre.foldl (fun t q => setKey t q.1 q.2) entries) k ≠ some (V.dict d)) :
    set_values (V.dict entries) name pd =
      (V.dict (pre.foldl (fun t q => setKey t q.1 q.2) entries), false) := by
  subst hparams
  simp only [set_values, hname]
  clear hname
  induction pre generalizing entries with
  | nil =>
    simp only [List.foldl_nil] at hmiss ⊢
    cases sub with
    | nil => exact absurd rfl hsub
    | cons s1 ss =>
    simp only [List.nil_append, set_values_items, List.isEmpty_cons, Bool.false_eq_true,
      if_false]
  | cons q pre ih =>
    obtain ⟨qk, qv⟩ := q
    simp only [List.cons_append, List.foldl_cons] at hmiss ⊢
    cases qv with
    | dict d => exact absurd rfl (hpre (qk, V.dict d) (List.mem_cons_self _ _) d)
    | num qq =>
      simp only [set_values_items]
      exact ih (setKey entries qk (V.num qq))
        (fun p hp => hpre p (List.mem_cons_of_mem _ hp)) hmiss
    | str s =>
      simp only [set_values_items]
      exact ih (setKey entries qk (V.str s))
        (fun p hp => hpre p (List.mem_cons_of_mem _ hp)) hmiss
    | arr l =>
      simp only [set_values_items]
      exact ih (setKey entries qk (V.arr l))
        (fun p hp => hpre p (List.mem_cons_of_mem _ hp)) hmiss

/-- Concrete parameter mapping for the C10 witness:
`{"n": {"x": "vx", "y": {"z": "vz"}}}`. -/
def exC10pd : PyDict :=
  [("n", V.dict [("x", V.str "vx"), ("y", V.dict [("z", V.str "vz")])])]

/-- C10 (witness): merging `{"x": "vx", "y": {"z": "vz"}}` onto an empty
target writes `"x"` and then fails at `"y"` (absent from the target),
leaving the earlier write in place. -/
theorem set_values_requires_existing_submapping_witness :
    set_values (V.dict []) "n" exC10pd = (V.dict [("x", V.str "vx")], false) :=
  set_values_requires_existing_submapping [] "n" exC10pd
    [("x", V.str "vx")] "y" [("z", V.str "vz")] [] _
    rfl rfl (by simp)
    (by
      intro q hq d
      simp only [List.mem_singleton] at hq
      subst hq
      simp)
    (by
      intro d h
      simp only [List.foldl_cons, List.foldl_nil, setKey, getKey] at h
      simp at h)

/-! ## C1: substitute_parameters and its (absent) copy -/

/-- A small but complete model configuration. -/
def exConfig : PyDict :=
  [("input_features", V.arr [V.dict [("name", V.str "f1"), ("encoder", V.str "rnn")]]),
   ("output_features", V.arr [V.dict [("name", V.str "o1")]]),
   ("combiner", V.dict [("type", V.str "concat")]),
   ("training", V.dict [("learning_rate", V.str "lr0")]),
   ("preprocessing", V.dict []),
   ("extra_section", V.str "untouched")]

/-- A hyperparameter sample targeting the training section. -/
def exSample : PyDict := [("training.learning_rate", V.str "lr1")]

/-- The state of `exConfig` after `substitute_parameters(exConfig, exSample)`:
the training section now holds the sampled learning rate. -/
def exConfigSubst : PyDict :=
  [("input_features", V.arr [V.dict [("name", V.str "f1"), ("encoder", V.str "rnn")]]),
   ("output_features", V.arr [V.dict [("name", V.str "o1")]]),
   ("combiner", V.dict [("type", V.str "concat")]),
   ("training", V.dict [("learning_rate", V.str "lr1")]),
   ("preprocessing", V.dict []),
   ("extra_section", V.str "untouched")]

/-- C1 (counterexample): `substitute_parameters` does not deep-copy its
input configuration: it applies the substitution in place, so after the
call the configuration object passed in (whose final state is the returned
value) is NOT structurally equal to its value before the call. -/
theorem substitute_parameters_mutates_counterexample :
    substitute_parameters exConfig exSample = some exConfigSubst ∧
    exConfigSubst ≠ exConfig :=
  ⟨rfl, by simp [exConfigSubst, exConfig]⟩

/-- Shape of a successful `substitute_parameters` run: the final state is
obtained from the input by replacing the two feature lists and then
applying the three section merges. -/
theorem substitute_parameters_eq_sections (md parameters out : PyDict)
    (h : substitute_parameters md parameters = some out) :
    ∃ pd ifs2 ofs2 md3 md4,
      applySection (setKey (setKey md "input_features" ifs2) "output_features" ofs2)
        "combiner" pd = some md3 ∧
      applySection md3 "training" pd = some md4 ∧
      applySection md4 "preprocessing" pd = some out := by
  simp only [substitute_parameters] at h
  repeat' split at h
  all_goals first
    | exact ⟨_, _, _, _, _, by assumption, by assumption, h⟩
    | simp at h

/-- C1 (amended): `substitute_parameters` mutates its input configuration
in place and returns that same object (the deep copy is made by its
callers, see the executors); the mutation is confined to the
`input_features`, `output_features`, `combiner`, `training` and
`preprocessing` entries: any other top-level entry of the configuration is
unchanged by the call. -/
theorem substitute_parameters_frame (md parameters out : PyDict) (k : String)
    (h : substitute_parameters md parameters = some out)
    (hk : ¬ k ∈ ["input_features", "output_features", "combiner", "training",
      "preprocessing"]) :
    getKey out k = getKey md k := by
  simp only [List.mem_cons, List.not_mem_nil, or_false, not_or] at hk
  obtain ⟨h1, h2, h3, h4, h5⟩ := hk
  obtain ⟨pd, ifs2, ofs2, md3, md4, hc, ht, hp⟩ :=
    substitute_parameters_eq_sections md parameters out h
  rw [applySection_getKey_ne md4 pd out "preprocessing" k hp h5,
    applySection_getKey_ne md3 pd md4 "training" k ht h4,
    applySection_getKey_ne _ pd md3 "combiner" k hc h3,
    getKey_setKey_ne _ "output_features" k _ h2,
    getKey_setKey_ne _ "input_features" k _ h1]

/-- C1 (witness): on the concrete run, the unrelated top-level entry
`"extra_section"` is untouched by the substitution. -/
theorem substitute_parameters_frame_witness :
    getKey exConfigSubst "extra_section" = getKey exConfig "extra_section" :=
  substitute_parameters_frame exConfig exSample exConfigSubst "extra_section"
    rfl (by decide)

/-! ## C4: the GPU slot is returned on every exit path -/

/-- C4: for every GPU-gated trial that finishes (the queue held a slot to
borrow), whether the trial body returns normally or raises, the number of
slots in the queue after `_train_and_eval_model_gpu` finishes (or its
exception propagates) equals the number before the borrow: the slot is put
back in the `finally` block. -/
theorem trainAndEvalModelGpu_queue_preserved
    (trainEval : HyperoptDict → Option (V × V)) (output_feature metric : String)
    (hd : HyperoptDict) (queue queue2 : List GpuSlot) (outcome : Option TrialResult)
    (h : trainAndEvalModelGpu trainEval output_feature metric hd queue =
      some (outcome, queue2)) :
    queue2.length = queue.length := by
  cases queue with
  | nil => simp [trainAndEvalModelGpu] at h
  | cons meta rest =>
    simp only [trainAndEvalModelGpu, Option.some.injEq, Prod.mk.injEq] at h
    obtain ⟨-, h2⟩ := h
    subst h2
    simp

/-- Two concrete GPU slots. -/
def exSlotA : GpuSlot := ⟨"0", some 100⟩

/-- A second concrete GPU slot. -/
def exSlotB : GpuSlot := ⟨"1", some 100⟩

/-- A concrete trial argument record. -/
def exHd : HyperoptDict := ⟨V.dict [], [], none, none⟩

/-- C4 (witness): a trial whose body raises (the collaborator returns no
stats) still restores the slot count: with queue `[A, B]` the call returns
the failure and the queue `[B, A]`, of equal length. -/
theorem trainAndEvalModelGpu_queue_preserved_witness :
    ([exSlotB, exSlotA] : List GpuSlot).length = [exSlotA, exSlotB].length :=
  trainAndEvalModelGpu_queue_preserved (fun _ => none) "acc" "m" exHd
    [exSlotA, exSlotB] [exSlotB, exSlotA] none rfl

/-! ## C3: over-subscribed allocator without an explicit limit -/

theorem truncInt_of_nonneg {q : Rat} (h : 0 ≤ q) : truncInt q = ⌊q⌋ :=
  if_pos h

/-- C3 (counterexample): the source computes `process_per_gpu` with
Python's `int()`, which truncates toward zero, not with `floor`: with
`W = 4`, `G = 2` and available memory `100` the limit is `-351` and the
code yields `0` processes per GPU whereas `floor(100 / -351) = -1`. -/
theorem gpu_meta_trunc_not_floor_counterexample :
    (gpuIdMeta 4 (1/100) none 2 100).gpu_memory_limit = some (-351) ∧
    (gpuIdMeta 4 (1/100) none 2 100).process_per_gpu = 0 ∧
    ⌊(100 : Rat) / (-351)⌋ = -1 ∧
    (gpuIdMeta 4 (1/100) none 2 100).process_per_gpu ≠ ⌊(100 : Rat) / (-351)⌋ := by
  have hlim : ((2 : Nat) : Rat) / ((4 : Nat) : Rat) - 1/100 = 49/100 := by
    push_cast
    norm_num
  have hq : (49 : Rat)/100 * 100 - 100 * ((4 : Nat) : Rat) = -351 := by
    push_cast
    norm_num
  have hproc : truncInt ((100 : Rat) / (-351)) = 0 := by
    rw [truncInt, if_neg (by norm_num)]
    rw [show ⌈(100 : Rat) / (-351)⌉ = 0 from by
      rw [Int.ceil_eq_iff]
      norm_num]
  have hfl : ⌊(100 : Rat) / (-351)⌋ = -1 := by
    rw [Int.floor_eq_iff]
    norm_num
  refine ⟨?_, ?_, hfl, ?_⟩
  · simp only [gpuIdMeta, hlim, hq]
  · simp only [gpuIdMeta, hlim, hq, hproc]
  · simp only [gpuIdMeta, hlim, hq, hproc, hfl]
    norm_num

/-- C3 (amended): in the over-subscribed case (`G < W`) with no explicit
`gpu_memory_limit`, for every GPU id the allocator sets the limit to
`(G/W - 0.01) * available_memory - 100 * W` and computes
`processes_per_gpu` as `available_memory / limit` truncated toward zero
(Python `int()`), which agrees with `floor(available_memory / limit)`
whenever the available memory is nonnegative and the computed limit is
positive; in particular for `W = 4`, `G = 2`, `available_memory = 1000`
the limit is `90` and `processes_per_gpu` is `11`. -/
theorem gpu_meta_no_explicit_limit (num_workers : Nat) (gpu_ids : List Nat)
    (available : Nat → Rat) (g : Nat) (meta : GpuMeta)
    (hover : gpu_ids.length < num_workers)
    (hmem : (g, meta) ∈ gpuIdsMeta num_workers (1/100) none gpu_ids available) :
    (meta.gpu_memory_limit =
      some (((gpu_ids.length : Rat) / (num_workers : Rat) - 1/100) * available g
        - 100 * (num_workers : Rat)) ∧
     meta.process_per_gpu =
      truncInt (available g /
        (((gpu_ids.length : Rat) / (num_workers : Rat) - 1/100) * available g
          - 100 * (num_workers : Rat))) ∧
     (0 ≤ available g →
      0 < ((gpu_ids.length : Rat) / (num_workers : Rat) - 1/100) * available g
          - 100 * (num_workers : Rat) →
      meta.process_per_gpu =
        ⌊available g /
          (((gpu_ids.length : Rat) / (num_workers : Rat) - 1/100) * available g
            - 100 * (num_workers : Rat))⌋)) ∧
    gpuIdMeta 4 (1/100) none 2 1000 = ⟨some 90, 11⟩ := by
  constructor
  · simp only [gpuIdsMeta, if_pos hover, List.mem_map] at hmem
    obtain ⟨g2, hg2, heq⟩ := hmem
    cases heq
    refine ⟨rfl, rfl, fun hav hpos => ?_⟩
    exact truncInt_of_nonneg (div_nonneg hav (le_of_lt hpos))
  · have h1 : ((2 : Nat) : Rat) / ((4 : Nat) : Rat) - 1/100 = 49/100 := by
      push_cast
      norm_num
    have h2 : (49 : Rat)/100 * 1000 - 100 * ((4 : Nat) : Rat) = 90 := by
      push_cast
      norm_num
    have h3 : truncInt ((1000 : Rat) / 90) = 11 := by
      rw [truncInt, if_pos (by norm_num)]
      rw [Int.floor_eq_iff]
      norm_num
    simp only [gpuIdMeta, h1, h2, h3]

/-- C3 (witness): the spec's own numeric instance, derived through the
general theorem: for `W = 4`, `gpu_ids = [0, 1]`, available memory `1000`
per GPU, the first GPU's limit is the formula value, which is `90`. -/
theorem gpu_meta_no_explicit_limit_witness :
    (gpuIdMeta 4 (1/100) none 2 (1000 : Rat)).gpu_memory_limit = some 90 ∧
    (gpuIdMeta 4 (1/100) none 2 (1000 : Rat)).process_per_gpu = 11 := by
  have h := gpu_meta_no_explicit_limit 4 [0, 1] (fun _ => 1000) 0
    (gpuIdMeta 4 (1/100) none [0, 1].length ((fun _ => (1000 : Rat)) 0))
    (by norm_num)
    (by
      unfold gpuIdsMeta
      rw [if_pos (by norm_num)]
      exact List.mem_map_of_mem _ (List.mem_cons_self 0 _))
  refine ⟨(h.1.1).trans (congrArg some ?_), ?_⟩
  · push_cast
    norm_num
  · rw [h.2]

/-! ## C2: over-subscribed allocator with an explicit limit -/

/-- C2 (counterexample): the first clamp only fires when the explicit limit
strictly exceeds the available memory, so a limit equal to the available
memory survives untouched: with `W = 3`, `G = 2`, available memory `1000`
and explicit limit `1000`, `required = (2/3 - 0.01) * 1000 > 500` and
`available == limit`, so the final limit is `1000`, which exceeds
`available_memory - 100 = 900` — refuting "the limit never exceeds
`available_memory - 100`". -/
theorem gpu_explicit_limit_exceeds_counterexample :
    (gpuIdMeta 3 (1/100) (some 1000) 2 1000).gpu_memory_limit = some 1000 ∧
    ¬ ((1000 : Rat) ≤ 1000 - 100) := by
  constructor
  · have h1 : ((2 : Nat) : Rat) / ((3 : Nat) : Rat) - 1/100 = 197/300 := by
      push_cast
      norm_num
    simp only [gpuIdMeta, h1]
    norm_num
  · norm_num

/-- C2 (amended): in the over-subscribed case (`G < W`) with an explicit
`gpu_memory_limit`, the allocator's final per-GPU limit follows this
ladder, with `required = (G/W - 0.01) * available`: the limit is clamped to
`available - 100` only when it strictly exceeds `available`; after that,
when `required` is below the (possibly clamped) limit: if `required`
exceeds half of `available` the limit is clamped down to `available - 100`
unless it already equals `available` (in which case it is left untouched,
so the final limit can exceed `available - 100`), and if `required` is at
most half of `available` the limit is lowered to `required`; when
`required` is not below the (clamped) limit, the limit stays as it is. -/
theorem gpu_meta_explicit_limit_ladder (num_workers : Nat) (gpu_ids : List Nat)
    (available : Nat → Rat) (g : Nat) (meta : GpuMeta) (lim : Rat)
    (hover : gpu_ids.length < num_workers)
    (hmem : (g, meta) ∈ gpuIdsMeta num_workers (1/100) (some lim) gpu_ids available)
    (avail required final : Rat)
    (havail : avail = available g)
    (hreq : required = ((gpu_ids.length : Rat) / (num_workers : Rat) - 1/100) * avail)
    (hfin : meta.gpu_memory_limit = some final) :
    (lim ≤ avail → required < lim → avail/2 < required → lim ≠ avail →
      final = avail - 100) ∧
    (lim ≤ avail → required < lim → avail/2 < required → lim = avail →
      final = lim) ∧
    (lim ≤ avail → required < lim → required ≤ avail/2 → final = required) ∧
    (lim ≤ avail → lim ≤ required → final = lim) ∧
    (avail < lim → required < avail - 100 → avail/2 < required →
      final = avail - 100) ∧
    (avail < lim → required < avail - 100 → required ≤ avail/2 →
      final = required) ∧
    (avail < lim → avail - 100 ≤ required → final = avail - 100) := by
  subst havail hreq
  simp only [gpuIdsMeta, if_pos hover, List.mem_map] at hmem
  obtain ⟨g2, hg2, heq⟩ := hmem
  cases heq
  simp only [gpuIdMeta, Option.some.injEq] at hfin
  subst hfin
  refine ⟨?_, ?_, ?_, ?_, ?_, ?_, ?_⟩
  · intro hla hrl hhalf hne
    split_ifs with c1 c2 c3 c4 <;> first | rfl | linarith | simp_all
  · intro hla hrl hhalf he
    split_ifs with c1 c2 c3 c4 <;> first | rfl | linarith | simp_all
  · intro hla hrl hhalf
    split_ifs with c1 c2 c3 c4 <;> first | rfl | linarith
  · intro hla hlr
    split_ifs with c1 c2 c3 c4 <;> first | rfl | linarith
  · intro hal hrc hhalf
    split_ifs with c1 c2 c3 c4 <;> first | rfl | linarith
  · intro hal hrc hhalf
    split_ifs with c1 c2 c3 c4 <;> first | rfl | linarith
  · intro hal hcr
    split_ifs with c1 c2 c3 c4 <;> first | rfl | linarith

/-- C2 (witness): a rung of the ladder at a concrete input — `W = 4`,
`G = 2`, available memory `1000`, explicit limit `600`:
`required = 490 < 600` and `490 <= 500`, so the limit is lowered to
`required = 490`. -/
theorem gpu_meta_explicit_limit_ladder_witness :
    (gpuIdMeta 4 (1/100) (some 600) 2 (1000 : Rat)).gpu_memory_limit = some 490 := by
  have hsome : (gpuIdMeta 4 (1/100) (some 600) 2 (1000 : Rat)).gpu_memory_limit.isSome :=
    rfl
  have h := gpu_meta_explicit_limit_ladder 4 [0, 1] (fun _ => 1000) 0
    (gpuIdMeta 4 (1/100) (some 600) ([0, 1] : List Nat).length ((fun _ => (1000 : Rat)) 0))
    600
    (by norm_num)
    (by
      unfold gpuIdsMeta
      rw [if_pos (by norm_num)]
      exact List.mem_map_of_mem _ (List.mem_cons_self 0 _))
    1000
    (((([0, 1] : List Nat).length : Rat) / ((4 : Nat) : Rat) - 1/100) * 1000)
    ((gpuIdMeta 4 (1/100) (some 600) 2 (1000 : Rat)).gpu_memory_limit.get hsome)
    rfl rfl (Option.some_get hsome).symm
  have h3 := h.2.2.1 (by norm_num) (by push_cast; norm_num) (by push_cast; norm_num)
  rw [← Option.some_get hsome, h3]
  refine congrArg some ?_
  push_cast
  norm_num

/-! ## C6: sort_hyperopt_results -/

/-- The score `0.5`. -/
def qHalf : Rat := ⟨1, 2, by norm_num, by norm_num⟩

/-- The score `0.9`. -/
def qNine : Rat := ⟨9, 10, by norm_num, by norm_num⟩

/-- The score `0.1`. -/
def qTenth : Rat := ⟨1, 10, by norm_num, by norm_num⟩

/-- The trial result inserted at index 0 (score `0.5`). -/
def exR0 : TrialResult := ⟨V.str "idx0", qHalf, V.dict [], V.dict []⟩

/-- The trial result inserted at index 1 (score `0.9`). -/
def exR1 : TrialResult := ⟨V.str "idx1", qNine, V.dict [], V.dict []⟩

/-- The trial result inserted at index 2 (score `0.9`). -/
def exR2 : TrialResult := ⟨V.str "idx2", qNine, V.dict [], V.dict []⟩

/-- The trial result inserted at index 3 (score `0.1`). -/
def exR3 : TrialResult := ⟨V.str "idx3", qTenth, V.dict [], V.dict []⟩

/-- C6: `sort_hyperopt_results` returns a permutation of the results,
sorted by `metric_score` descending for MAXIMIZE and ascending otherwise,
and stably: any two results with equal scores appearing in that order in
the input appear in the same order in the output; in particular, with
MAXIMIZE on scores `[0.5, 0.9, 0.9, 0.1]` inserted in that order, the
output is the `0.9` of index 1, the `0.9` of index 2, then `0.5`, then
`0.1`. -/
theorem sort_hyperopt_results_spec (goal : Goal) (results : List TrialResult) :
    (sort_hyperopt_results goal results).Perm results ∧
    (goal = Goal.MAXIMIZE →
      (sort_hyperopt_results goal results).Sorted
        fun a b => b.metric_score ≤ a.metric_score) ∧
    (goal = Goal.MINIMIZE →
      (sort_hyperopt_results goal results).Sorted
        fun a b => a.metric_score ≤ b.metric_score) ∧
    (∀ a b : TrialResult, a.metric_score = b.metric_score →
      [a, b].Sublist results → [a, b].Sublist (sort_hyperopt_results goal results)) ∧
    (qHalf = 1/2 ∧ qNine = 9/10 ∧ qTenth = 1/10) ∧
    sort_hyperopt_results Goal.MAXIMIZE [exR0, exR1, exR2, exR3] =
      [exR1, exR2, exR0, exR3] := by
  haveI hdtot : IsTotal TrialResult (fun a b => b.metric_score ≤ a.metric_score) :=
    ⟨fun a b => le_total b.metric_score a.metric_score⟩
  haveI hdtr : IsTrans TrialResult (fun a b => b.metric_score ≤ a.metric_score) :=
    ⟨fun _ _ _ h1 h2 => le_trans h2 h1⟩
  haveI hatot : IsTotal TrialResult (fun a b => a.metric_score ≤ b.metric_score) :=
    ⟨fun a b => le_total a.metric_score b.metric_score⟩
  haveI hatr : IsTrans TrialResult (fun a b => a.metric_score ≤ b.metric_score) :=
    ⟨fun _ _ _ h1 h2 => le_trans h1 h2⟩
  refine ⟨?_, ?_, ?_, ?_, ?_, ?_⟩
  · cases goal <;> simp only [sort_hyperopt_results, if_true, if_false, reduceIte] <;>
      exact List.perm_insertionSort _ _
  · intro hg
    subst hg
    simp only [sort_hyperopt_results, reduceIte]
    exact List.sorted_insertionSort _ _
  · intro hg
    subst hg
    simp only [sort_hyperopt_results, reduceIte]
    exact List.sorted_insertionSort _ _
  · intro a b hab hsub
    cases goal
    · simp only [sort_hyperopt_results, reduceIte]
      exact List.pair_sublist_insertionSort (le_of_eq hab.symm) hsub
    · simp only [sort_hyperopt_results, reduceIte]
      exact List.pair_sublist_insertionSort (le_of_eq hab) hsub
  · exact ⟨by rw [qHalf, Rat.mk'_eq_divInt, Rat.divInt_eq_div]; norm_num,
      by rw [qNine, Rat.mk'_eq_divInt, Rat.divInt_eq_div]; norm_num,
      by rw [qTenth, Rat.mk'_eq_divInt, Rat.divInt_eq_div]; norm_num⟩
  · rfl

/-- C6 (witness): the stability clause at the concrete tie — the two `0.9`
results of insertion indices 1 and 2 keep their relative order in the
MAXIMIZE-sorted output. -/
theorem sort_hyperopt_results_spec_witness :
    [exR1, exR2].Sublist
      (sort_hyperopt_results Goal.MAXIMIZE [exR0, exR1, exR2, exR3]) :=
  (sort_hyperopt_results_spec Goal.MAXIMIZE [exR0, exR1, exR2, exR3]).2.2.2.1
    exR1 exR2 rfl
    (List.Sublist.cons exR0 (List.Sublist.cons₂ exR1 (List.Sublist.cons₂ exR2
      (List.nil_sublist [exR3]))))

/-! ## Loop lemmas for the three executors -/

theorem serialTrial_spec (te : TrainEval) (o m : String) (base p : PyDict)
    (r : TrialResult) (b1 : PyDict)
    (h : serialTrial te o m base p = some (r, b1)) :
    b1 = base ∧ r.parameters = V.dict p := by
  simp only [serialTrial] at h
  repeat' split at h
  all_goals cases h
  exact ⟨rfl, rfl⟩

theorem runSerialBatch_spec (te : TrainEval) (o m : String) :
    ∀ (ps : List PyDict) (base : PyDict) (rs : List TrialResult) (scores : List Rat)
      (b2 : PyDict),
    runSerialBatch te o m base ps = some (rs, scores, b2) →
    b2 = base ∧ rs.length = ps.length ∧ scores = rs.map TrialResult.metric_score ∧
      rs.map TrialResult.parameters = ps.map V.dict
  | [], base, rs, scores, b2, h => by
    cases h
    exact ⟨rfl, rfl, rfl, rfl⟩
  | p :: ps, base, rs, scores, b2, h => by
    simp only [runSerialBatch] at h
    cases h1 : serialTrial te o m base p with
    | none =>
      rw [h1] at h
      dsimp only at h
      cases h
    | some rb =>
      obtain ⟨r, base1⟩ := rb
      rw [h1] at h
      dsimp only at h
      cases h2 : runSerialBatch te o m base1 ps with
      | none =>
        rw [h2] at h
        dsimp only at h
        cases h
      | some t =>
        obtain ⟨rs2, scores2, base2⟩ := t
        rw [h2] at h
        dsimp only at h
        obtain ⟨hb1, hp⟩ := serialTrial_spec te o m base p r base1 h1
        obtain ⟨hb2, hl, hs, hm⟩ := runSerialBatch_spec te o m ps base1 rs2 scores2 base2 h2
        cases h
        exact ⟨hb2.trans hb1, by simp [hl], by simp [hs], by simp [hm, hp]⟩

theorem serialLoop_spec (te : TrainEval) (o m : String) :
    ∀ (batches : List (List PyDict)) (base : PyDict) (rs : List TrialResult)
      (upds : List (List (V × Rat))) (b2 : PyDict),
    serialLoop te o m base batches = some (rs, upds, b2) →
    b2 = base ∧
    upds.map (fun u => u.map Prod.fst) = batches.map (fun b => b.map V.dict) ∧
    upds.flatten = rs.map (fun r => (r.parameters, r.metric_score)) ∧
    rs.length = (batches.map List.length).sum
  | [], base, rs, upds, b2, h => by
    cases h
    exact ⟨rfl, rfl, rfl, rfl⟩
  | batch :: rest, base, rs, upds, b2, h => by
    simp only [serialLoop] at h
    cases h1 : runSerialBatch te o m base batch with
    | none =>
      rw [h1] at h
      dsimp only at h
      cases h
    | some t1 =>
      obtain ⟨rs1, scores, base1⟩ := t1
      rw [h1] at h
      dsimp only at h
      cases h2 : serialLoop te o m base1 rest with
      | none =>
        rw [h2] at h
        dsimp only at h
        cases h
      | some t2 =>
        obtain ⟨rs2, upds2, base2⟩ := t2
        rw [h2] at h
        dsimp only at h
        obtain ⟨hb1, hlen, hsc, hpar⟩ := runSerialBatch_spec te o m batch base rs1 scores base1 h1
        obtain ⟨hb2, hupd, hflat, hrlen⟩ := serialLoop_spec te o m rest base1 rs2 upds2 base2 h2
        cases h
        refine ⟨hb2.trans hb1, ?_, ?_, ?_⟩
        · simp only [List.map_cons, hupd, List.cons.injEq, and_true]
          exact List.map_fst_zip _ _ (by simp [hsc, hlen])
        · simp only [List.flatten_cons, hflat, List.map_append, List.append_cancel_right_eq]
          rw [← hpar, hsc, List.zip_map']
        · simp [hrlen, hlen]

theorem trainAndEvalModel_parameters (te : TrainEval) (o m : String)
    (hd : V × PyDict) (r : TrialResult)
    (h : trainAndEvalModel te o m hd = some r) : r.parameters = hd.1 := by
  simp only [trainAndEvalModel] at h
  repeat' split at h
  all_goals cases h
  rfl

theorem poolMap_length (f : α → Option β) :
    ∀ (l : List α) (l2 : List β), poolMap f l = some l2 → l2.length = l.length
  | [], l2, h => by
    cases h
    rfl
  | a :: rest, l2, h => by
    simp only [poolMap] at h
    cases h1 : f a with
    | none =>
      rw [h1] at h
      dsimp only at h
      cases h
    | some b =>
      rw [h1] at h
      dsimp only at h
      cases h2 : poolMap f rest with
      | none =>
        rw [h2] at h
        dsimp only at h
        cases h
      | some bs =>
        rw [h2] at h
        dsimp only at h
        have hrec := poolMap_length f rest bs h2
        cases h
        simp [hrec]

theorem poolMap_map (f : α → Option β) (g : β → γ) (g2 : α → γ)
    (hfg : ∀ a b, f a = some b → g b = g2 a) :
    ∀ (l : List α) (l2 : List β), poolMap f l = some l2 → l2.map g = l.map g2
  | [], l2, h => by
    cases h
    rfl
  | a :: rest, l2, h => by
    simp only [poolMap] at h
    cases h1 : f a with
    | none =>
      rw [h1] at h
      dsimp only at h
      cases h
    | some b =>
      rw [h1] at h
      dsimp only at h
      cases h2 : poolMap f rest with
      | none =>
        rw [h2] at h
        dsimp only at h
        cases h
      | some bs =>
        rw [h2] at h
        dsimp only at h
        have hrec := poolMap_map f g g2 hfg rest bs h2
        cases h
        simp [hfg a b h1, hrec]

theorem buildHyperoptParams_spec (base : PyDict) :
    ∀ (ps : List PyDict) (hps : List (V × PyDict)) (b2 : PyDict),
    buildHyperoptParams base ps = some (hps, b2) →
    b2 = base ∧ hps.map Prod.fst = ps.map V.dict ∧ hps.length = ps.length
  | [], hps, b2, h => by
    cases h
    exact ⟨rfl, rfl, rfl⟩
  | p :: ps, hps, b2, h => by
    simp only [buildHyperoptParams] at h
    cases h1 : substitute_parameters (deepcopy base) p with
    | none =>
      rw [h1] at h
      dsimp only at h
      cases h
    | some modified =>
      rw [h1] at h
      dsimp only at h
      cases h2 : buildHyperoptParams base ps with
      | none =>
        rw [h2] at h
        dsimp only at h
        cases h
      | some t =>
        obtain ⟨hps2, base2⟩ := t
        rw [h2] at h
        dsimp only at h
        obtain ⟨hb, hm, hl⟩ := buildHyperoptParams_spec base ps hps2 base2 h2
        cases h
        exact ⟨hb, by simp [hm], by simp [hl]⟩

theorem parallelLoop_spec (te : TrainEval) (o m : String) :
    ∀ (batches : List (List PyDict)) (base : PyDict) (rs : List TrialResult)
      (upds : List (List (V × Rat))) (b2 : PyDict),
    parallelLoop te o m base batches = some (rs, upds, b2) →
    b2 = base ∧
    upds.map (fun u => u.map Prod.fst) = batches.map (fun b => b.map V.dict) ∧
    upds.flatten = rs.map (fun r => (r.parameters, r.metric_score)) ∧
    rs.length = (batches.map List.length).sum
  | [], base, rs, upds, b2, h => by
    cases h
    exact ⟨rfl, rfl, rfl, rfl⟩
  | batch :: rest, base, rs, upds, b2, h => by
    simp only [parallelLoop] at h
    cases h1 : buildHyperoptParams base batch with
    | none =>
      rw [h1] at h
      dsimp only at h
      cases h
    | some t1 =>
      obtain ⟨hps, base1⟩ := t1
      rw [h1] at h
      dsimp only at h
      cases h2 : poolMap (trainAndEvalModel te o m) hps with
      | none =>
        rw [h2] at h
        dsimp only at h
        cases h
      | some brs =>
        rw [h2] at h
        dsimp only at h
        cases h3 : parallelLoop te o m base1 rest with
        | none =>
          rw [h3] at h
          dsimp only at h
          cases h
        | some t2 =>
          obtain ⟨rs2, upds2, base2⟩ := t2
          rw [h3] at h
          dsimp only at h
          obtain ⟨hb1, hfst, hlen⟩ := buildHyperoptParams_spec base batch hps base1 h1
          have hblen := poolMap_length (trainAndEvalModel te o m) hps brs h2
          have hbpar := poolMap_map (trainAndEvalModel te o m) TrialResult.parameters
            Prod.fst (fun a b hb => trainAndEvalModel_parameters te o m a b hb) hps brs h2
          obtain ⟨hb2, hupd, hflat, hrlen⟩ := parallelLoop_spec te o m rest base1 rs2 upds2
            base2 h3
          cases h
          refine ⟨hb2.trans hb1, ?_, ?_, ?_⟩
          · simp only [List.map_cons, hupd, List.cons.injEq, and_true, List.map_map]
            rw [show (Prod.fst ∘ fun r : TrialResult => (r.parameters, r.metric_score)) =
              TrialResult.parameters from rfl]
            rw [hbpar, hfst]
          · simp [hflat]
          · simp [hrlen, hblen, hlen]

theorem buildFiberConfigs_spec (base : PyDict) :
    ∀ (ps : List PyDict) (configs : List PyDict) (b2 : PyDict),
    buildFiberConfigs base ps = some (configs, b2) →
    b2 = base ∧ configs.length = ps.length
  | [], configs, b2, h => by
    cases h
    exact ⟨rfl, rfl⟩
  | p :: ps, configs, b2, h => by
    simp only [buildFiberConfigs] at h
    cases h1 : substitute_parameters (deepcopy base) p with
    | none =>
      rw [h1] at h
      dsimp only at h
      cases h
    | some modified =>
      rw [h1] at h
      dsimp only at h
      cases h2 : buildFiberConfigs base ps with
      | none =>
        rw [h2] at h
        dsimp only at h
        cases h
      | some t =>
        obtain ⟨cs2, base2⟩ := t
        rw [h2] at h
        dsimp only at h
        obtain ⟨hb, hl⟩ := buildFiberConfigs_spec base ps cs2 base2 h2
        cases h
        exact ⟨hb, by simp [hl]⟩

theorem fiberCollect_spec (o m : String) :
    ∀ (pairs : List ((V × V) × PyDict)) (rs : List TrialResult) (scores : List Rat),
    fiberCollect pairs o m = some (rs, scores) →
    rs.length = pairs.length ∧ scores = rs.map TrialResult.metric_score ∧
      rs.map TrialResult.parameters = pairs.map (fun q => V.dict q.2)
  | [], rs, scores, h => by
    cases h
    exact ⟨rfl, rfl, rfl⟩
  | ((ts, es), p) :: pairs, rs, scores, h => by
    simp only [fiberCollect] at h
    cases h1 : get_metric_score o m es with
    | none =>
      rw [h1] at h
      dsimp only at h
      cases h
    | some score =>
      rw [h1] at h
      dsimp only at h
      cases h2 : fiberCollect pairs o m with
      | none =>
        rw [h2] at h
        dsimp only at h
        cases h
      | some t =>
        obtain ⟨rs2, scores2⟩ := t
        rw [h2] at h
        dsimp only at h
        obtain ⟨hl, hs, hm⟩ := fiberCollect_spec o m pairs rs2 scores2 h2
        cases h
        exact ⟨by simp [hl], by simp [hs], by simp [hm]⟩

theorem fiberLoop_spec (te : TrainEval) (o m : String) :
    ∀ (batches : List (List PyDict)) (base : PyDict) (rs : List TrialResult)
      (upds : List (List (V × Rat))) (b2 : PyDict),
    fiberLoop te o m base batches = some (rs, upds, b2) →
    b2 = base ∧
    upds.map (fun u => u.map Prod.fst) = batches.map (fun b => b.map V.dict) ∧
    upds.flatten = rs.map (fun r => (r.parameters, r.metric_score)) ∧
    rs.length = (batches.map List.length).sum
  | [], base, rs, upds, b2, h => by
    cases h
    exact ⟨rfl, rfl, rfl, rfl⟩
  | batch :: rest, base, rs, upds, b2, h => by
    simp only [fiberLoop] at h
    cases h1 : buildFiberConfigs base batch with
    | none =>
      rw [h1] at h
      dsimp only at h
      cases h
    | some t1 =>
      obtain ⟨configs, base1⟩ := t1
      rw [h1] at h
      dsimp only at h
      cases h2 : poolMap te configs with
      | none =>
        rw [h2] at h
        dsimp only at h
        cases h
      | some statsBatch =>
        rw [h2] at h
        dsimp only at h
        cases h3 : fiberCollect (statsBatch.zip batch) o m with
        | none =>
          rw [h3] at h
          dsimp only at h
          cases h
        | some t2 =>
          obtain ⟨rs1, scores⟩ := t2
          rw [h3] at h
          dsimp only at h
          cases h4 : fiberLoop te o m base1 rest with
          | none =>
            rw [h4] at h
            dsimp only at h
            cases h
          | some t3 =>
            obtain ⟨rs2, upds2, base2⟩ := t3
            rw [h4] at h
            dsimp only at h
            obtain ⟨hb1, hclen⟩ := buildFiberConfigs_spec base batch configs base1 h1
            have hslen := poolMap_length te configs statsBatch h2
            have hzlen : batch.length ≤ statsBatch.length := by
              rw [hslen, hclen]
            have hplen : (statsBatch.zip batch).length = batch.length := by
              simp [List.length_zip, hslen, hclen]
            obtain ⟨hl1, hs1, hm1⟩ := fiberCollect_spec o m (statsBatch.zip batch) rs1
              scores h3
            obtain ⟨hb2, hupd, hflat, hrlen⟩ := fiberLoop_spec te o m rest base1 rs2 upds2
              base2 h4
            cases h
            have hparbatch : rs1.map TrialResult.parameters = batch.map V.dict := by
              rw [hm1, show (fun q : (V × V) × PyDict => V.dict q.2) =
                V.dict ∘ Prod.snd from rfl, ← List.map_map, List.map_snd_zip _ _ hzlen]
            refine ⟨hb2.trans hb1, ?_, ?_, ?_⟩
            · simp only [List.map_cons, hupd, List.cons.injEq, and_true]
              exact List.map_fst_zip _ _ (by simp [hs1, hl1, hplen])
            · simp only [List.flatten_cons, hflat, List.map_append,
                List.append_cancel_right_eq]
              rw [← hparbatch, hs1, List.zip_map']
            · simp [hrlen, hl1, hplen]

/-! ## C7: the sampler feedback contract of the three executors -/

/-- C7: for every run of an executor (serial, parallel or fiber) in which
every trial completes, `update_batch` is called exactly once per sampled
batch (one log entry per batch), with exactly one `(parameters,
metric_score)` pair per trial of that batch — the pairs of the whole log
are exactly the trials' `(parameters, metric_score)` in order — and the
loop exits exactly when the sampler reports finished (all batches
processed in full, `sum` of the batch sizes many results), never
mid-batch. -/
theorem executor_update_batch_contract (te : TrainEval) (outF mn : String)
    (base : PyDict) (batches : List (List PyDict)) :
    (∀ rs upds b2, serialLoop te outF mn base batches = some (rs, upds, b2) →
      upds.map (fun u => u.map Prod.fst) = batches.map (fun b => b.map V.dict) ∧
      upds.flatten = rs.map (fun r => (r.parameters, r.metric_score)) ∧
      rs.length = (batches.map List.length).sum) ∧
    (∀ rs upds b2, parallelLoop te outF mn base batches = some (rs, upds, b2) →
      upds.map (fun u => u.map Prod.fst) = batches.map (fun b => b.map V.dict) ∧
      upds.flatten = rs.map (fun r => (r.parameters, r.metric_score)) ∧
      rs.length = (batches.map List.length).sum) ∧
    (∀ rs upds b2, fiberLoop te outF mn base batches = some (rs, upds, b2) →
      upds.map (fun u => u.map Prod.fst) = batches.map (fun b => b.map V.dict) ∧
      upds.flatten = rs.map (fun r => (r.parameters, r.metric_score)) ∧
      rs.length = (batches.map List.length).sum) := by
  refine ⟨fun rs upds b2 h => ?_, fun rs upds b2 h => ?_, fun rs upds b2 h => ?_⟩
  · obtain ⟨-, a, b, c⟩ := serialLoop_spec te outF mn batches base rs upds b2 h
    exact ⟨a, b, c⟩
  · obtain ⟨-, a, b, c⟩ := parallelLoop_spec te outF mn batches base rs upds b2 h
    exact ⟨a, b, c⟩
  · obtain ⟨-, a, b, c⟩ := fiberLoop_spec te outF mn batches base rs upds b2 h
    exact ⟨a, b, c⟩

/-- The evaluation statistics returned by the concrete collaborator:
`{"acc": {"m": 0.9}}`. -/
def exEvalStats : V := V.dict [("acc", V.dict [("m", V.num qNine)])]

/-- A concrete collaborator: every trial trains and evaluates to the same
statistics. -/
def exTrainEval : TrainEval := fun _ => some (V.dict [], exEvalStats)

/-- The two trial results of the concrete serial run. -/
def exRs : List TrialResult :=
  [⟨V.dict exSample, qNine, V.dict [], exEvalStats⟩,
   ⟨V.dict [], qNine, V.dict [], exEvalStats⟩]

/-- The update log of the concrete serial run: one call, two pairs. -/
def exUpds : List (List (V × Rat)) :=
  [[(V.dict exSample, qNine), (V.dict [], qNine)]]

/-- C7 (witness): a sampler yielding one batch of 2 samples and then
finished produces exactly 2 trial results and one `update_batch` call whose
pairs are exactly the two trials' `(parameters, metric_score)`. -/
theorem executor_update_batch_contract_witness :
    exRs.length = 2 ∧
    exUpds.flatten = exRs.map (fun r => (r.parameters, r.metric_score)) ∧
    exUpds.length = 1 := by
  have hrun : serialLoop exTrainEval "acc" "m" exConfig [[exSample, []]] =
      some (exRs, exUpds, exConfig) := rfl
  have h := (executor_update_batch_contract exTrainEval "acc" "m" exConfig
    [[exSample, []]]).1 exRs exUpds exConfig hrun
  exact ⟨h.2.2.trans rfl, h.2.1, (congrArg List.length h.1).trans rfl⟩

/-! ## C8: the base configuration is never mutated -/

/-- C8: for every base model configuration and every run of an executor
(serial, parallel or fiber), the base configuration supplied by the caller
is structurally unchanged after the run: each trial substitutes into its
own deep copy, so the state of the base object threaded through the run
equals its initial value. -/
theorem base_config_preserved (te : TrainEval) (outF mn : String)
    (base : PyDict) (batches : List (List PyDict)) :
    (∀ rs upds b2, serialLoop te outF mn base batches = some (rs, upds, b2) →
      b2 = base) ∧
    (∀ rs upds b2, parallelLoop te outF mn base batches = some (rs, upds, b2) →
      b2 = base) ∧
    (∀ rs upds b2, fiberLoop te outF mn base batches = some (rs, upds, b2) →
      b2 = base) :=
  ⟨fun rs upds b2 h => (serialLoop_spec te outF mn batches base rs upds b2 h).1,
   fun rs upds b2 h => (parallelLoop_spec te outF mn batches base rs upds b2 h).1,
   fun rs upds b2 h => (fiberLoop_spec te outF mn batches base rs upds b2 h).1⟩

/-- C8 (witness): on the concrete two-trial serial run the final state of
the base configuration is the original `exConfig`. -/
theorem base_config_preserved_witness :
    (serialLoop exTrainEval "acc" "m" exConfig [[exSample, []]]).map
      (fun t => t.2.2) = some exConfig :=
  (congrArg (Option.map fun t => t.2.2) (rfl : serialLoop exTrainEval "acc" "m"
      exConfig [[exSample, []]] = some (exRs, exUpds, exConfig))).trans
    (congrArg some ((base_config_preserved exTrainEval "acc" "m" exConfig
      [[exSample, []]]).1 exRs exUpds exConfig rfl))
